import Mathlib

/-!
Verification of the product-manifold module of `geomstats`
(`src/geomstats/geometry/product_manifold.py`).

The embedding models the two composite spaces of the source file:
`ProductManifold` (heterogeneous product, vector or matrix point layout)
and `NFoldManifold` (homogeneous power), together with the numeric-tensor
backend primitives (`gs.*`) that the source delegates to.  Scalars are
modelled by `Rat`; batch and point data are modelled by flat lists carried
together with an explicit shape (`Arr`), mirroring the row-major layout of
the numeric backend.  Fallible calls return `Except Err`.
-/

set_option maxHeartbeats 1000000

/-- Error taxonomy.  `raw` models an exception raised by a factor or base
operation and propagated as-is; `configError` models a construction-time
rejection (the spec's ConfigError); `notSupported` models the
`NotImplementedError` raised by `NFoldManifold.projection` (the spec's
taxonomy calls it NotSupportedError); `factorOperationError` is the
wrapped error described by the spec's section 7 (factor index, operation
name, underlying error) and is used only to state claims about it. -/
inductive Err where
  | raw : String → Err
  | configError : String → Err
  | notSupported : String → Err
  | factorOperationError : Nat → String → String → Err
deriving DecidableEq

instance {ε α : Type} [DecidableEq ε] [DecidableEq α] :
    DecidableEq (Except ε α) := fun x y =>
  match x, y with
  | .ok a, .ok b =>
    if h : a = b then isTrue (by rw [h])
    else isFalse fun hc => h (Except.ok.inj hc)
  | .error a, .error b =>
    if h : a = b then isTrue (by rw [h])
    else isFalse fun hc => h (Except.error.inj hc)
  | .ok _, .error _ => isFalse fun hc => Except.noConfusion hc
  | .error _, .ok _ => isFalse fun hc => Except.noConfusion hc

/-- A dense row-major array: a shape together with the flat data. -/
structure Arr (α : Type) where
  shape : List Nat
  data : List α
deriving DecidableEq

/-- Names of the keyword arguments the source passes through the
dispatcher (`point`, `vector`, `base_point`, `atol`). -/
inductive ArgName where
  | point
  | vector
  | base_point
  | atol
deriving DecidableEq

/-- A dispatcher argument value: a plain float scalar (broadcast
unchanged, the source tests `isinstance(value, float)`) or a
one-dimensional array to be split along its trailing axis. -/
inductive Val where
  | scalar : Rat → Val
  | arr : List Rat → Val
deriving DecidableEq

/-- Tests the `isinstance(value, float)` branch of the dispatcher. -/
def Val.isScalar : Val → Bool
  | .scalar _ => true
  | .arr _ => false

/-- Array payload of a dispatcher value. -/
def Val.getArr : Val → List Rat
  | .scalar _ => []
  | .arr a => a

/-- A factor manifold of the heterogeneous product: the base-space
contract surface the source consumes from each factor.  Vector-layout
factor points are one-dimensional (the source carries the FIXME
"This only works for 1d points"), so factor operations act on flat
lists; a raising factor operation is an `Except.error`. -/
structure Manifold where
  dim : Nat
  shape : List Nat
  belongs : List Rat → Rat → Except Err Bool
  regularize : List Rat → Except Err (List Rat)
  is_tangent : List Rat → List Rat → Rat → Except Err Bool

instance : Inhabited Manifold :=
  ⟨{ dim := 0, shape := [],
     belongs := fun _ _ => Except.ok false,
     regularize := fun p => Except.ok p,
     is_tangent := fun _ _ _ => Except.ok false }⟩

/-- Default absolute tolerance of the backend (`gs.atol`). -/
def gs_atol : Rat := 1 / 1000000000000

/-- Running sums of a list (`gs.cumsum`): entry `i` is the sum of the
first `i + 1` entries of the input. -/
def cumsum : List Nat → List Nat
  | [] => []
  | x :: xs => x :: (cumsum xs).map fun y => x + y

/-- Walks the split boundaries, carrying the absolute offset already
consumed: at boundary `i` the next piece is the slice from the previous
boundary `prev` up to `i`. -/
def splitAtBounds (prev : Nat) (xs : List α) : List Nat → List (List α)
  | [] => [xs]
  | i :: is => xs.take (i - prev) :: splitAtBounds i (xs.drop (i - prev)) is

/-- Models `gs.split xs idx axis=-1` on one-dimensional data, with the
semantics of `numpy.split`: cutting `xs` at each index of `idx` yields
`idx.length + 1` consecutive pieces. -/
def gsSplit (xs : List α) (idx : List Nat) : List (List α) :=
  splitAtBounds 0 xs idx

/-- Consecutive chunks of the given sizes taken from a list; the
reference decomposition that slicing at running-sum boundaries must
reproduce. -/
def chunksOf : List Nat → List α → List (List α)
  | [], _ => []
  | n :: ns, xs => xs.take n :: chunksOf ns (xs.drop n)

/-- Models `gs.stack(axis=-1)` of scalar per-factor booleans followed by
`gs.all(axis=-1)`: the conjunction over the new last axis. -/
def gs_all_last (bs : List Bool) : Bool :=
  bs.all fun b => b

/-- Sequential collection of per-factor results in factor order.  Models
both the `joblib.Parallel` pool of `_iterate_over_manifolds` (results are
returned in task order; a raising task aborts the whole call with its
exception, the first one in order under sequential execution) and the
direct list comprehensions of the matrix-layout branches. -/
def collectResults : List (Except Err β) → Except Err (List β)
  | [] => Except.ok []
  | t :: ts =>
    match t with
    | .error e => .error e
    | .ok r =>
      match collectResults ts with
      | .error e => .error e
      | .ok rs => .ok (r :: rs)

/-- Models `gs.stack(axis=-1)` followed by `gs.all(axis=-1)` applied to
a dispatch result: the per-factor booleans are AND-reduced across the
new last axis, and a dispatch failure propagates. -/
def stack_and_all (r : Except Err (List Bool)) : Except Err Bool :=
  match r with
  | .ok bs => .ok (gs_all_last bs)
  | .error e => .error e

/-- The split boundaries of `_iterate_over_manifolds` (source lines
81-85): the running sum of `dims` with the last boundary dropped when
intrinsic, the running sum of `dims[i] + 1` over all factors otherwise. -/
def cum_index (dims : List Nat) (intrinsic : Bool) : List Nat :=
  if intrinsic then (cumsum dims).dropLast
  else cumsum (dims.map fun k => k + 1)

/-- The heterogeneous product space.  `dims`, `dim` and `shape` are the
derived attributes computed by `ProductManifold.__init__`;
`is_intrinsic` is the surface consumed from the metric collaborator. -/
structure PM where
  manifolds : List Manifold
  default_point_type : String
  dims : List Nat
  dim : Nat
  shape : List Nat
  n_jobs : Nat
  is_intrinsic : Arr Rat → Bool

/-- The per-factor argument mapping assembled by
`_iterate_over_manifolds` (source lines 86-100): every non-float
argument is split along its trailing axis at `cum_index` and factor `i`
receives piece `i` (`args_list[i]`), merged with every float argument
unchanged (`float_args`). -/
def PM.factor_args (M : PM) (args : List (ArgName × Val)) (intrinsic : Bool)
    (i : Nat) : List (ArgName × Val) :=
  ((args.filter fun kv => ¬ kv.2.isScalar).map fun kv =>
      (kv.1, Val.arr ((gsSplit kv.2.getArr (cum_index M.dims intrinsic)).getD i []))) ++
    args.filter fun kv => kv.2.isScalar

/-- Models `ProductManifold._iterate_over_manifolds` (source lines
79-104): compute the split boundaries, slice every array argument, and
invoke the operation on each factor with its slices plus the float
arguments, collecting the results in factor order.  Dynamic dispatch by
method name (`_get_method`) is modelled by the `op` argument. -/
def PM.iterate_over_manifolds (M : PM)
    (op : Manifold → List (ArgName × Val) → Except Err β)
    (args : List (ArgName × Val)) (intrinsic : Bool) : Except Err (List β) :=
  collectResults ((List.range M.manifolds.length).map fun i =>
    op (M.manifolds.getD i default) (M.factor_args args intrinsic i))

/-- Keyword lookup of an array argument. -/
def lookupArr (args : List (ArgName × Val)) (k : ArgName) : List Rat :=
  match args.lookup k with
  | some v => v.getArr
  | none => []

/-- Keyword lookup of a scalar argument. -/
def lookupScalar (args : List (ArgName × Val)) (k : ArgName) : Rat :=
  match args.lookup k with
  | some (Val.scalar s) => s
  | _ => 0

/-- The `belongs` operation invoked by name on a factor. -/
def op_belongs (m : Manifold) (args : List (ArgName × Val)) : Except Err Bool :=
  m.belongs (lookupArr args ArgName.point) (lookupScalar args ArgName.atol)

/-- The `regularize` operation invoked by name on a factor. -/
def op_regularize (m : Manifold) (args : List (ArgName × Val)) :
    Except Err (List Rat) :=
  m.regularize (lookupArr args ArgName.point)

/-- The `is_tangent` operation invoked by name on a factor. -/
def op_is_tangent (m : Manifold) (args : List (ArgName × Val)) : Except Err Bool :=
  m.is_tangent (lookupArr args ArgName.vector) (lookupArr args ArgName.base_point)
    (lookupScalar args ArgName.atol)

/-- Models indexing `a[..., i, :]`: selects index `i` along the
second-to-last axis, keeping the trailing axis and any batch axes. -/
def Arr.index_second_last (a : Arr α) (i : Nat) : Arr α :=
  let d := a.shape.getLastD 1
  let m := a.shape.dropLast.getLastD 1
  let outer := a.shape.dropLast.dropLast
  ⟨outer ++ [d],
   (List.range outer.prod).flatMap fun o => (a.data.drop (o * m * d + i * d)).take d⟩

/-- Models `gs.stack(ts, axis)` for a non-negative axis: the stacked
shape inserts the count at position `axis`; the data interleaves the
inputs block-wise in row-major order. -/
def gs_stack (axis : Nat) (ts : List (Arr α)) : Arr α :=
  let s := (ts.headD ⟨[], []⟩).shape
  let inner := (s.drop axis).prod
  let outer := (s.take axis).prod
  ⟨s.take axis ++ ts.length :: s.drop axis,
   (List.range outer).flatMap fun o =>
     ts.flatMap fun t => (t.data.drop (o * inner)).take inner⟩

/-- Models `gs.concatenate(parts, axis=-1)` on one-dimensional parts. -/
def gs_concatenate_last (parts : List (List Rat)) : Arr Rat :=
  ⟨[(parts.map fun p => p.length).sum], parts.flatten⟩

/-- Models `gs.reshape(a, s)` for a fully specified `s`; callers satisfy
the backend's size contract (the theorems carry it as a hypothesis where
it matters). -/
def gs_reshape (a : Arr α) (s : List Nat) : Arr α :=
  ⟨s, a.data⟩

/-- Models `gs.reshape(a, (-1, *rest))`: the leading `-1` is resolved to
the data length divided by the product of the remaining axes. -/
def gs_reshape_m1 (a : Arr α) (rest : List Nat) : Arr α :=
  ⟨a.data.length / rest.prod :: rest, a.data⟩

/-- Models `gs.squeeze(a)`: removes every axis of size 1. -/
def gs_squeeze (a : Arr α) : Arr α :=
  ⟨a.shape.filter fun d => d ≠ 1, a.data⟩

/-- Models `gs.squeeze(a, axis=0)`: removes the leading axis when it has
size 1 (the backend rejects the call otherwise; the source only makes it
on a leading axis of size `n_samples = 1`). -/
def gs_squeeze_axis0 (a : Arr α) : Arr α :=
  if a.shape.headD 0 = 1 then ⟨a.shape.tail, a.data⟩ else a

/-- Models `gs.all(a, axis=1)` on a two-dimensional boolean array. -/
def gs_all_axis1 (a : Arr Bool) : Arr Bool :=
  let m := a.shape.headD 0
  let n := a.shape.getD 1 0
  ⟨[m], (List.range m).map fun i => ((a.data.drop (i * n)).take n).all fun b => b⟩

/-- Left-pads a shape with 1s to the given rank (broadcast alignment). -/
def padShape (k : Nat) (s : List Nat) : List Nat :=
  List.replicate (k - s.length) 1 ++ s

/-- The common broadcast shape of two shapes (right-aligned, size-1 axes
expand). -/
def broadcastShape (s t : List Nat) : List Nat :=
  let k := max s.length t.length
  List.zipWith max (padShape k s) (padShape k t)

/-- Row-major multi-index of flat position `k` in shape `s`. -/
def unflattenIdx : List Nat → Nat → List Nat
  | [], _ => []
  | _ :: ds, k => k / ds.prod :: unflattenIdx ds (k % ds.prod)

/-- Row-major flat position of a multi-index in shape `s`. -/
def flattenIdx : List Nat → List Nat → Nat
  | [], _ => 0
  | _ :: ds, [] => 0 * ds.prod
  | d :: ds, i :: is => i * ds.prod + (d - d) + flattenIdx ds is

/-- Expands an array to a broadcast shape by repeating size-1 axes. -/
def broadcastTo [Inhabited α] (a : Arr α) (s : List Nat) : Arr α :=
  let ps := padShape s.length a.shape
  ⟨s, (List.range s.prod).map fun k =>
    let idx := unflattenIdx s k
    let src := List.zipWith (fun i d => if d = 1 then 0 else i) idx ps
    a.data.getD (flattenIdx ps src) default⟩

/-- Models `gs.broadcast_arrays(a, b)`. -/
def gs_broadcast_arrays [Inhabited α] (a b : Arr α) : Arr α × Arr α :=
  let s := broadcastShape a.shape b.shape
  (broadcastTo a s, broadcastTo b s)

/-- Models `ProductManifold.__init__` (source lines 44-73).  The tag
check is performed by `geomstats.errors.check_parameter_accepted_values`,
which is not part of src; it is modelled from the spec: construction is
rejected with a ConfigError when the point-layout tag is not one of the
accepted values.  The derived attributes follow the source: `dims` is the
list of factor dimensions, `dim` their sum, and `shape` is the sum of the
factors' leading shape entries (vector) or the factor count followed by
the first factor's shape (matrix); the source performs no check that the
factors share a shape in the matrix layout. -/
def PM.mk' (manifolds : List Manifold) (default_point_type : String)
    (is_intrinsic : Arr Rat → Bool) (n_jobs : Nat) : Except Err PM :=
  if ¬ (default_point_type = ("vector") ∨ default_point_type = ("matrix")) then
    Except.error (Err.configError ("default_point_type"))
  else
    let dims := manifolds.map fun m => m.dim
    let dim := dims.sum
    let shape :=
      if default_point_type = ("vector") then
        [(manifolds.map fun m => m.shape.headD 0).sum]
      else
        manifolds.length :: (manifolds.headD default).shape
    Except.ok ⟨manifolds, default_point_type, dims, dim, shape, n_jobs, is_intrinsic⟩

/-- Models `ProductManifold.belongs` (source lines 106-138): dispatch
`belongs` per factor (vector layout: through the dispatcher with the
split convention chosen by the metric's `is_intrinsic`; matrix layout:
on each `point[..., i, :]` slice), stack the per-factor booleans along a
new last axis and reduce them with logical AND. -/
def PM.belongs (M : PM) (point : Arr Rat) (atol : Rat) : Except Err Bool :=
  if M.default_point_type = ("vector") then
    stack_and_all (M.iterate_over_manifolds op_belongs
      [(ArgName.point, Val.arr point.data), (ArgName.atol, Val.scalar atol)]
      (M.is_intrinsic point))
  else
    stack_and_all (collectResults ((List.range M.manifolds.length).map fun i =>
      (M.manifolds.getD i default).belongs (point.index_second_last i).data atol))

/-- Models `ProductManifold.is_tangent` (source lines 261-303): like
`belongs`, with the split convention chosen from `base_point`, each
factor receiving its slices of both `vector` and `base_point`. -/
def PM.is_tangent (M : PM) (vector base_point : Arr Rat) (atol : Rat) :
    Except Err Bool :=
  if M.default_point_type = ("vector") then
    stack_and_all (M.iterate_over_manifolds op_is_tangent
      [(ArgName.base_point, Val.arr base_point.data),
       (ArgName.vector, Val.arr vector.data),
       (ArgName.atol, Val.scalar atol)] (M.is_intrinsic base_point))
  else
    stack_and_all (collectResults ((List.range M.manifolds.length).map fun i =>
      (M.manifolds.getD i default).is_tangent (vector.index_second_last i).data
        (base_point.index_second_last i).data atol))

/-- Models `ProductManifold.regularize` (source lines 140-168): vector
layout dispatches `regularize` per factor and concatenates along the
last axis; matrix layout regularizes each `point[..., i, :]` slice and
recombines with `gs.stack(..., axis=1)`.  Tags other than the two
accepted ones fall through both branches of the source and raise an
unbound-local error on return. -/
def PM.regularize (M : PM) (point : Arr Rat) : Except Err (Arr Rat) :=
  if M.default_point_type = ("vector") then
    match M.iterate_over_manifolds op_regularize
      [(ArgName.point, Val.arr point.data)] (M.is_intrinsic point) with
    | .ok parts => .ok (gs_concatenate_last parts)
    | .error e => .error e
  else if M.default_point_type = ("matrix") then
    match collectResults ((List.range M.manifolds.length).map fun i =>
      (M.manifolds.getD i default).regularize (point.index_second_last i).data) with
    | .ok parts => .ok (gs_stack 1 (parts.map fun r => Arr.mk [r.length] r))
    | .error e => .error e
  else
    Except.error (Err.raw ("UnboundLocalError"))

/-- The slice of a composite array that belongs to factor `i`: the piece
between the dispatcher's split boundaries in the vector layout, the
`[..., i, :]` sub-array in the matrix layout. -/
def PM.slice_for_factor (M : PM) (a : Arr Rat) (intrinsic : Bool) (i : Nat) :
    List Rat :=
  if M.default_point_type = ("vector") then
    (gsSplit a.data (cum_index M.dims intrinsic)).getD i []
  else
    (a.index_second_last i).data

/-- The base manifold of a homogeneous power, consumed through the
batched base-space contract on arrays.  `projection` is optional: its
absence models a base without a `projection` attribute.  The base's own
`is_tangent` exposes its tolerance parameter; calls that omit it use the
backend default `gs.atol`. -/
structure NBase where
  dim : Nat
  shape : List Nat
  random_point : Nat → Rat → Arr Rat
  projection : Option (Arr Rat → Arr Rat)
  is_tangent : Arr Rat → Arr Rat → Rat → Arr Bool

/-- The homogeneous power space; `dim`, `shape` and `base_shape` are the
attributes computed by `NFoldManifold.__init__`. -/
structure NF where
  base_manifold : NBase
  n_copies : Nat
  dim : Nat
  shape : List Nat
  base_shape : List Nat

/-- Models `NFoldManifold.__init__` (source lines 325-350).
`geomstats.errors.check_integer` is not part of src; it is modelled from
the spec: construction is rejected with a ConfigError when the repeat
count is not a positive integer.  The derived attributes follow the
source: `dim = n_copies * base.dim`, `shape = (n_copies,) + base.shape`. -/
def NF.mk' (base_manifold : NBase) (n_copies : Nat) : Except Err NF :=
  if n_copies < 1 then Except.error (Err.configError ("n_copies"))
  else
    Except.ok ⟨base_manifold, n_copies, n_copies * base_manifold.dim,
      n_copies :: base_manifold.shape, base_manifold.shape⟩

/-- Models `NFoldManifold.random_point` (source lines 425-445): request
`n_samples * n_copies` draws from the base in one call, reshape to
`(n_samples, n_copies, *base_shape)`, and drop the leading axis when
`n_samples` is not greater than 1. -/
def NF.random_point (N : NF) (n_samples : Nat) (bound : Rat) : Arr Rat :=
  let sample := N.base_manifold.random_point (n_samples * N.n_copies) bound
  let reshaped := gs_reshape sample (n_samples :: N.n_copies :: N.base_shape)
  if n_samples > 1 then reshaped else gs_squeeze_axis0 reshaped

/-- Models `NFoldManifold.projection` (source lines 447-467): when the
base exposes a projection, flatten the factor axis into the batch axis,
project once, reshape back to `(-1, n_copies, *base_shape)` and squeeze;
otherwise raise (the spec's NotSupportedError). -/
def NF.projection (N : NF) (point : Arr Rat) : Except Err (Arr Rat) :=
  match N.base_manifold.projection with
  | some proj =>
    let point_ := gs_reshape_m1 point N.base_shape
    let projected := proj point_
    let reshaped := gs_reshape_m1 projected (N.n_copies :: N.base_shape)
    Except.ok (gs_squeeze reshaped)
  | none =>
    Except.error
      (Err.notSupported ("The base manifold does not implement a projection method."))

/-- Models `NFoldManifold.is_tangent` (source lines 372-398): broadcast
`vector` and `base_point` to a common shape, flatten both to
`(-1, *base_shape)`, call the base `is_tangent` once — the source passes
no tolerance, so the base uses its default `gs.atol` and the `atol`
parameter is unused — then reshape to `(-1, n_copies)` and AND-reduce
along axis 1. -/
def NF.is_tangent (N : NF) (vector base_point : Arr Rat) (atol : Rat) : Arr Bool :=
  let p := gs_broadcast_arrays vector base_point
  let point_ := gs_reshape_m1 p.2 N.base_shape
  let vector_ := gs_reshape_m1 p.1 N.base_shape
  let each_tangent := N.base_manifold.is_tangent vector_ point_ gs_atol
  let reshaped := gs_reshape_m1 each_tangent [N.n_copies]
  gs_all_axis1 reshaped

/-- The number of pieces produced by a split: one more than the number
of boundaries. -/
lemma splitAtBounds_length (p : Nat) (xs : List α) (idx : List Nat) :
    (splitAtBounds p xs idx).length = idx.length + 1 := by
  induction idx generalizing p xs with
  | nil => rfl
  | cons i is ih => simp [splitAtBounds, ih]

lemma gsSplit_length (xs : List α) (idx : List Nat) :
    (gsSplit xs idx).length = idx.length + 1 :=
  splitAtBounds_length 0 xs idx

lemma dropLast_cons_of_ne_nil (a : α) (l : List α) (h : l ≠ []) :
    (a :: l).dropLast = a :: l.dropLast := by
  cases l with
  | nil => exact absurd rfl h
  | cons b t => rfl

lemma map_add_map_add (p s : Nat) (l : List Nat) :
    ((l.map fun y => s + y).map fun y => p + y) = l.map fun y => (p + s) + y := by
  rw [List.map_map]
  congr 1
  funext a
  simp [Nat.add_assoc]

lemma splitAtBounds_cumsum (p : Nat) (sizes : List Nat) (xs : List α) :
    splitAtBounds p xs ((cumsum sizes).map fun y => p + y) =
      chunksOf sizes xs ++ [xs.drop sizes.sum] := by
  induction sizes generalizing p xs with
  | nil => simp [cumsum, splitAtBounds, chunksOf]
  | cons s ss ih =>
    rw [cumsum, List.map_cons, map_add_map_add, splitAtBounds]
    have h1 : p + s - p = s := by omega
    rw [h1, ih (p + s) (xs.drop s)]
    rw [chunksOf, List.drop_drop]
    simp [Nat.add_comm]

/-- Splitting at all the running sums yields the chunks of the given
sizes followed by the remainder of the list. -/
lemma gsSplit_cumsum (sizes : List Nat) (xs : List α) :
    gsSplit xs (cumsum sizes) = chunksOf sizes xs ++ [xs.drop sizes.sum] := by
  have h := splitAtBounds_cumsum 0 sizes xs
  have h0 : ((cumsum sizes).map fun y => 0 + y) = cumsum sizes := by
    simp
  rw [h0] at h
  exact h

lemma splitAtBounds_cumsum_dropLast (p : Nat) (sizes : List Nat) (xs : List α)
    (hne : sizes ≠ []) (hlen : xs.length = sizes.sum) :
    splitAtBounds p xs ((cumsum sizes).dropLast.map fun y => p + y) =
      chunksOf sizes xs := by
  induction sizes generalizing p xs with
  | nil => exact absurd rfl hne
  | cons s ss ih =>
    cases ss with
    | nil =>
      have hs : xs.length = s := by simpa using hlen
      have hx : xs.take s = xs := by
        rw [← hs]
        exact List.take_length xs
      simp [cumsum, splitAtBounds, chunksOf, hx]
    | cons s2 ss2 =>
      rw [cumsum, dropLast_cons_of_ne_nil _ _ (by simp [cumsum]),
        ← List.map_dropLast, List.map_cons, map_add_map_add, splitAtBounds]
      have h1 : p + s - p = s := by omega
      rw [h1, ih (p + s) (xs.drop s) (by simp) (by simp [hlen, List.sum_cons])]
      rfl

/-- Splitting at the running sums with the last boundary dropped yields
exactly the chunks of the given sizes, provided the list has exactly the
total width. -/
lemma gsSplit_cumsum_dropLast (sizes : List Nat) (xs : List α)
    (hne : sizes ≠ []) (hlen : xs.length = sizes.sum) :
    gsSplit xs (cumsum sizes).dropLast = chunksOf sizes xs := by
  have h := splitAtBounds_cumsum_dropLast 0 sizes xs hne hlen
  have h0 : ((cumsum sizes).dropLast.map fun y => 0 + y) = (cumsum sizes).dropLast := by
    simp
  rw [h0] at h
  exact h

lemma chunksOf_length (sizes : List Nat) (xs : List α) :
    (chunksOf sizes xs).length = sizes.length := by
  induction sizes generalizing xs with
  | nil => rfl
  | cons s ss ih => simp [chunksOf, ih]

/-- Chunk `i` is the slice starting at the sum of the first `i` sizes,
of width `sizes[i]`. -/
lemma chunksOf_getD (sizes : List Nat) (xs : List α) (i : Nat)
    (hi : i < sizes.length) :
    (chunksOf sizes xs).getD i [] =
      (xs.drop ((sizes.take i).sum)).take (sizes.getD i 0) := by
  induction sizes generalizing xs i with
  | nil => simp at hi
  | cons s ss ih =>
    cases i with
    | zero => simp [chunksOf]
    | succ i =>
      simp only [chunksOf, List.getD_cons_succ]
      rw [ih (xs.drop s) i (by simpa using hi)]
      simp [List.drop_drop, Nat.add_comm]

/-- A collection over results that all succeeded cannot fail. -/
lemma collect_exists_ok (ts : List (Except Err β))
    (h : ∀ t ∈ ts, ∃ b, t = Except.ok b) :
    ∃ l, collectResults ts = Except.ok l := by
  induction ts with
  | nil => exact ⟨[], rfl⟩
  | cons t ts ih =>
    obtain ⟨b, hb⟩ := h t (List.mem_cons_self t ts)
    obtain ⟨l, hl⟩ := ih fun t ht => h t (List.mem_cons_of_mem _ ht)
    exact ⟨b :: l, by simp [collectResults, hb, hl]⟩

/-- AND-reduction of a fully successful dispatch is true exactly when
every per-factor result is true. -/
lemma stack_and_all_ok_true_iff (ts : List (Except Err Bool))
    (h : ∀ t ∈ ts, ∃ b, t = Except.ok b) :
    stack_and_all (collectResults ts) = Except.ok true ↔
      ∀ t ∈ ts, t = Except.ok true := by
  induction ts with
  | nil => simp [collectResults, stack_and_all, gs_all_last]
  | cons t ts ih =>
    obtain ⟨b, hb⟩ := h t (List.mem_cons_self t ts)
    obtain ⟨l, hl⟩ := collect_exists_ok ts fun t ht => h t (List.mem_cons_of_mem _ ht)
    have ihl := (ih fun t ht => h t (List.mem_cons_of_mem _ ht))
    rw [hl] at ihl
    subst hb
    rw [show collectResults (Except.ok b :: ts) = Except.ok (b :: l) by
      simp [collectResults, hl]]
    simp only [stack_and_all, gs_all_last, List.all_cons, Except.ok.injEq,
      Bool.and_eq_true] at ihl ⊢
    constructor
    · rintro ⟨hb1, h2⟩ t ht
      rcases List.mem_cons.mp ht with rfl | hmem
      · rw [hb1]
      · exact ihl.mp h2 t hmem
    · intro hall
      refine ⟨?_, ihl.mpr fun t ht => hall t (List.mem_cons_of_mem _ ht)⟩
      have hb0 := hall (Except.ok b) (List.mem_cons_self _ _)
      simpa using hb0

/-- A failing collection fails with the error of the first failing task,
every earlier task having succeeded; no partial result list exists. -/
lemma collect_error_decomp (ts : List (Except Err β)) (e : Err)
    (h : collectResults ts = Except.error e) :
    ∃ i, ∃ hi : i < ts.length, ts[i] = Except.error e ∧
      ∀ j, j < i → ∃ b, ∃ hj : j < ts.length, ts[j] = Except.ok b := by
  induction ts with
  | nil => simp [collectResults] at h
  | cons t ts ih =>
    cases t with
    | error e' =>
      have he : e' = e := by simpa [collectResults] using h
      exact ⟨0, by simp, by simp [he], fun j hj => absurd hj (Nat.not_lt_zero j)⟩
    | ok b =>
      cases hc : collectResults ts with
      | error e' =>
        have he : e' = e := by
          simp only [collectResults, hc] at h
          injection h
        obtain ⟨i, hi, hmid, hpre⟩ := ih (he ▸ hc)
        refine ⟨i + 1, by simpa using Nat.succ_lt_succ hi, by simpa using hmid, ?_⟩
        intro j hj
        cases j with
        | zero => exact ⟨b, by simp, by simp⟩
        | succ k =>
          obtain ⟨c, hk, hck⟩ := hpre k (Nat.lt_of_succ_lt_succ hj)
          exact ⟨c, by simpa using Nat.succ_lt_succ hk, by simpa using hck⟩
      | ok rs =>
        simp only [collectResults, hc] at h
        exact absurd h (by simp)

/-- Transfer between membership in a mapped range and indexed form. -/
lemma forall_mem_map_range {P : γ → Prop} (f : Nat → γ) (n : Nat) :
    (∀ t ∈ (List.range n).map f, P t) ↔ ∀ i, i < n → P (f i) := by
  constructor
  · intro h i hi
    exact h _ (List.mem_map_of_mem f (List.mem_range.mpr hi))
  · intro h t ht
    obtain ⟨i, hi, rfl⟩ := List.mem_map.mp ht
    exact h i (List.mem_range.mp hi)

/-- What the dispatcher hands a factor for a `belongs` call: the slice
of `point`, with `atol` untouched. -/
lemma op_belongs_factor_args (M : PM) (m : Manifold) (pd : List Rat)
    (atol : Rat) (intr : Bool) (i : Nat) :
    op_belongs m (M.factor_args
        [(ArgName.point, Val.arr pd), (ArgName.atol, Val.scalar atol)] intr i) =
      m.belongs ((gsSplit pd (cum_index M.dims intr)).getD i []) atol := rfl

/-- What the dispatcher hands a factor for a `regularize` call. -/
lemma op_regularize_factor_args (M : PM) (m : Manifold) (pd : List Rat)
    (intr : Bool) (i : Nat) :
    op_regularize m (M.factor_args [(ArgName.point, Val.arr pd)] intr i) =
      m.regularize ((gsSplit pd (cum_index M.dims intr)).getD i []) := rfl

/-- What the dispatcher hands a factor for an `is_tangent` call: the
slices of `vector` and `base_point`, with `atol` untouched. -/
lemma op_is_tangent_factor_args (M : PM) (m : Manifold) (bd vd : List Rat)
    (atol : Rat) (intr : Bool) (i : Nat) :
    op_is_tangent m (M.factor_args
        [(ArgName.base_point, Val.arr bd), (ArgName.vector, Val.arr vd),
         (ArgName.atol, Val.scalar atol)] intr i) =
      m.is_tangent ((gsSplit vd (cum_index M.dims intr)).getD i [])
        ((gsSplit bd (cum_index M.dims intr)).getD i []) atol := rfl

/-- A factor of intrinsic dimension 2 with one-dimensional points. -/
def demoFac2 : Manifold :=
  { dim := 2, shape := [2],
    belongs := fun p _ => Except.ok (decide (p.length = 2)),
    regularize := fun p => Except.ok p,
    is_tangent := fun v p _ => Except.ok (decide (v.length = 2 ∧ p.length = 2)) }

/-- A factor of intrinsic dimension 3 with one-dimensional points. -/
def demoFac3 : Manifold :=
  { dim := 3, shape := [3],
    belongs := fun p _ => Except.ok (decide (p.length = 3)),
    regularize := fun p => Except.ok p,
    is_tangent := fun v p _ => Except.ok (decide (v.length = 3 ∧ p.length = 3)) }

/-- The vector-layout product of `demoFac2` and `demoFac3` as built by
the constructor: `dims = [2, 3]`, `dim = 5`, `shape = [5]`. -/
def demoPM2 : PM :=
  { manifolds := [demoFac2, demoFac3], default_point_type := ("vector"),
    dims := [2, 3], dim := 5, shape := [5], n_jobs := 1,
    is_intrinsic := fun _ => true }

/-- A factor whose every operation raises. -/
def facBoom : Manifold :=
  { dim := 3, shape := [3],
    belongs := fun _ _ => Except.error (Err.raw ("boom")),
    regularize := fun _ => Except.error (Err.raw ("boom")),
    is_tangent := fun _ _ _ => Except.error (Err.raw ("boom")) }

/-- A vector-layout product whose second factor raises on every call. -/
def demoFailPM : PM :=
  { manifolds := [demoFac2, facBoom], default_point_type := ("vector"),
    dims := [2, 3], dim := 5, shape := [5], n_jobs := 1,
    is_intrinsic := fun _ => true }

/-- A factor with `shape = [3]` whose `regularize` is the identity. -/
def fac3a : Manifold :=
  { dim := 3, shape := [3],
    belongs := fun p _ => Except.ok (decide (p.length = 3)),
    regularize := fun p => Except.ok p,
    is_tangent := fun v p _ => Except.ok (decide (v.length = 3 ∧ p.length = 3)) }

/-- The matrix-layout product of two `shape = [3]` factors as built by
the constructor: `shape = [2, 3]`. -/
def demoMatPM : PM :=
  { manifolds := [fac3a, fac3a], default_point_type := ("matrix"),
    dims := [3, 3], dim := 6, shape := [2, 3], n_jobs := 1,
    is_intrinsic := fun _ => true }

/-- A base space with `shape = [3]` meeting the batched sampling
contract, exposing an identity projection. -/
def demoBase : NBase :=
  { dim := 3, shape := [3],
    random_point := fun m _ => ⟨[m, 3], (List.range (m * 3)).map fun k => (k : Rat)⟩,
    projection := some fun a => a,
    is_tangent := fun v _ _ => ⟨[v.shape.headD 0], List.replicate (v.shape.headD 0) true⟩ }

/-- The 4-fold power of `demoBase` as built by the constructor. -/
def demoNF : NF := ⟨demoBase, 4, 12, [4, 3], [3]⟩

/-- `demoBase` stripped of its projection attribute. -/
def demoBaseNP : NBase := { demoBase with projection := none }

/-- The 4-fold power of the projection-less base. -/
def demoNFnp : NF := ⟨demoBaseNP, 4, 12, [4, 3], [3]⟩

lemma cumsum_length (l : List Nat) : (cumsum l).length = l.length := by
  induction l with
  | nil => rfl
  | cons x xs ih => simp [cumsum, ih]

/-- C1: for every vector-layout heterogeneous product the dispatcher's
split boundaries are the running sum of `dims` with the last boundary
dropped (intrinsic) and the running sum of `dims[i]+1` over all factors
(extrinsic), so piece `i` is exactly factor `i`'s slice of native width
`dims[i]` (resp. `dims[i]+1`); in particular, with factor dimensions 2
and 3, an intrinsic point of width 5 is split at index 2 and the
dispatcher assembles the 2-wide slice for factor 0 and the 3-wide slice
for factor 1. -/
theorem split_boundaries_route_factor_slices (dims : List Nat) (i : Nat)
    (hi : i < dims.length) :
    (∀ xs : List Rat, xs.length = dims.sum →
      (gsSplit xs (cum_index dims true)).getD i [] =
        (xs.drop ((dims.take i).sum)).take (dims.getD i 0))
  ∧ (∀ xs : List Rat, xs.length = ((dims.map fun k => k + 1).sum) →
      (gsSplit xs (cum_index dims false)).getD i [] =
        (xs.drop (((dims.take i).map fun k => k + 1).sum)).take (dims.getD i 0 + 1))
  ∧ (∀ pt : List Rat, pt.length = 5 →
      demoPM2.factor_args [(ArgName.point, Val.arr pt)] true 0 =
          [(ArgName.point, Val.arr (pt.take 2))] ∧
        demoPM2.factor_args [(ArgName.point, Val.arr pt)] true 1 =
          [(ArgName.point, Val.arr (pt.drop 2))]) := by
  have hne : dims ≠ [] := by
    intro h
    rw [h] at hi
    exact absurd hi (by simp)
  refine ⟨?_, ?_, ?_⟩
  · intro xs hlen
    rw [show cum_index dims true = (cumsum dims).dropLast from rfl,
      gsSplit_cumsum_dropLast dims xs hne hlen, chunksOf_getD dims xs i hi]
  · intro xs hlen
    rw [show cum_index dims false = cumsum (dims.map fun k => k + 1) from rfl,
      gsSplit_cumsum (dims.map fun k => k + 1) xs]
    rw [List.getD_append _ _ _ i (by rw [chunksOf_length]; simpa using hi)]
    rw [chunksOf_getD (dims.map fun k => k + 1) xs i (by simpa using hi)]
    have hA : (((dims.map fun k => k + 1).take i).sum) =
        (((dims.take i).map fun k => k + 1).sum) := by
      rw [List.map_take]
    have hB : (dims.map fun k => k + 1).getD i 0 = dims.getD i 0 + 1 := by
      rw [List.getD_eq_getElem _ _ (by simpa using hi),
        List.getD_eq_getElem _ _ hi, List.getElem_map]
    rw [hA, hB]
  · intro pt hpt
    constructor
    · simp [PM.factor_args, demoPM2, cum_index, cumsum, gsSplit, splitAtBounds,
        Val.isScalar, Val.getArr]
    · simp [PM.factor_args, demoPM2, cum_index, cumsum, gsSplit, splitAtBounds,
        Val.isScalar, Val.getArr]

/-- Witness for C1 at factor dimensions 2 and 3 and a concrete width-5
point. -/
theorem split_boundaries_route_factor_slices_witness :
    (gsSplit ([1, 2, 3, 4, 5] : List Rat) (cum_index [2, 3] true)).getD 0 [] =
        [1, 2] ∧
      demoPM2.factor_args [(ArgName.point, Val.arr [1, 2, 3, 4, 5])] true 1 =
        [(ArgName.point, Val.arr [3, 4, 5])] := by
  have h := split_boundaries_route_factor_slices [2, 3] 0 (by decide)
  constructor
  · rw [h.1 [1, 2, 3, 4, 5] (by decide)]
    decide
  · rw [(h.2.2 [1, 2, 3, 4, 5] (by decide)).2]
    decide

/-- C2: for every heterogeneous product, `belongs` (resp. `is_tangent`)
stacks the per-factor booleans along a new last axis and AND-reduces
them, so the composite result is true exactly when every factor's own
`belongs` (resp. `is_tangent`) on its corresponding slice is true, in
both the vector and the matrix layout. -/
theorem belongs_is_tangent_iff_all_factors (M : PM)
    (point vector base_point : Arr Rat) (atol : Rat)
    (hb : ∀ i, i < M.manifolds.length → ∃ b,
      (M.manifolds.getD i default).belongs
        (M.slice_for_factor point (M.is_intrinsic point) i) atol = Except.ok b)
    (ht : ∀ i, i < M.manifolds.length → ∃ b,
      (M.manifolds.getD i default).is_tangent
        (M.slice_for_factor vector (M.is_intrinsic base_point) i)
        (M.slice_for_factor base_point (M.is_intrinsic base_point) i) atol =
          Except.ok b) :
    (M.belongs point atol = Except.ok true ↔
      ∀ i, i < M.manifolds.length →
        (M.manifolds.getD i default).belongs
          (M.slice_for_factor point (M.is_intrinsic point) i) atol =
            Except.ok true)
  ∧ (M.is_tangent vector base_point atol = Except.ok true ↔
      ∀ i, i < M.manifolds.length →
        (M.manifolds.getD i default).is_tangent
          (M.slice_for_factor vector (M.is_intrinsic base_point) i)
          (M.slice_for_factor base_point (M.is_intrinsic base_point) i) atol =
            Except.ok true) := by
  by_cases hv : M.default_point_type = ("vector")
  · constructor
    · rw [PM.belongs, if_pos hv, PM.iterate_over_manifolds]
      have harg : ∀ i, op_belongs (M.manifolds.getD i default)
          (M.factor_args
            [(ArgName.point, Val.arr point.data), (ArgName.atol, Val.scalar atol)]
            (M.is_intrinsic point) i) =
          (M.manifolds.getD i default).belongs
            (M.slice_for_factor point (M.is_intrinsic point) i) atol := by
        intro i
        rw [op_belongs_factor_args, PM.slice_for_factor, if_pos hv]
      simp only [harg]
      rw [stack_and_all_ok_true_iff _ ((forall_mem_map_range _ _).mpr hb)]
      exact forall_mem_map_range _ _
    · rw [PM.is_tangent, if_pos hv, PM.iterate_over_manifolds]
      have harg : ∀ i, op_is_tangent (M.manifolds.getD i default)
          (M.factor_args
            [(ArgName.base_point, Val.arr base_point.data),
             (ArgName.vector, Val.arr vector.data),
             (ArgName.atol, Val.scalar atol)]
            (M.is_intrinsic base_point) i) =
          (M.manifolds.getD i default).is_tangent
            (M.slice_for_factor vector (M.is_intrinsic base_point) i)
            (M.slice_for_factor base_point (M.is_intrinsic base_point) i) atol := by
        intro i
        rw [op_is_tangent_factor_args, PM.slice_for_factor, if_pos hv,
          PM.slice_for_factor, if_pos hv]
      simp only [harg]
      rw [stack_and_all_ok_true_iff _ ((forall_mem_map_range _ _).mpr ht)]
      exact forall_mem_map_range _ _
  · constructor
    · rw [PM.belongs, if_neg hv]
      have harg : ∀ i, (M.manifolds.getD i default).belongs
          (point.index_second_last i).data atol =
          (M.manifolds.getD i default).belongs
            (M.slice_for_factor point (M.is_intrinsic point) i) atol := by
        intro i
        rw [PM.slice_for_factor, if_neg hv]
      simp only [harg]
      rw [stack_and_all_ok_true_iff _ ((forall_mem_map_range _ _).mpr hb)]
      exact forall_mem_map_range _ _
    · rw [PM.is_tangent, if_neg hv]
      have harg : ∀ i, (M.manifolds.getD i default).is_tangent
          (vector.index_second_last i).data
          (base_point.index_second_last i).data atol =
          (M.manifolds.getD i default).is_tangent
            (M.slice_for_factor vector (M.is_intrinsic base_point) i)
            (M.slice_for_factor base_point (M.is_intrinsic base_point) i) atol := by
        intro i
        rw [PM.slice_for_factor, if_neg hv, PM.slice_for_factor, if_neg hv]
      simp only [harg]
      rw [stack_and_all_ok_true_iff _ ((forall_mem_map_range _ _).mpr ht)]
      exact forall_mem_map_range _ _

/-- Witness for C2 on the concrete two-factor vector-layout product. -/
theorem belongs_is_tangent_iff_all_factors_witness :
    demoPM2.belongs (Arr.mk [5] [1, 2, 3, 4, 5]) gs_atol = Except.ok true := by
  have h := belongs_is_tangent_iff_all_factors demoPM2
    (Arr.mk [5] [1, 2, 3, 4, 5]) (Arr.mk [5] [1, 2, 3, 4, 5])
    (Arr.mk [5] [1, 2, 3, 4, 5]) gs_atol
    (fun i hi =>
      match i, hi with
      | 0, _ => ⟨true, by decide⟩
      | 1, _ => ⟨true, by decide⟩)
    (fun i hi =>
      match i, hi with
      | 0, _ => ⟨true, by decide⟩
      | 1, _ => ⟨true, by decide⟩)
  exact h.1.mpr (fun i hi =>
    match i, hi with
    | 0, _ => by decide
    | 1, _ => by decide)

/-- C3 (amended): when a factor's invoked operation raises during a
heterogeneous dispatch, the whole call fails by propagating that
factor's underlying error unchanged — the first failing factor in factor
order, every earlier factor having succeeded — and no partial per-factor
result sequence is returned.  (The source performs no wrapping: the
propagated error is the raw factor error and carries neither the factor
index nor the operation name.) -/
theorem dispatch_error_propagates_first_factor_error (M : PM) {β : Type}
    (op : Manifold → List (ArgName × Val) → Except Err β)
    (args : List (ArgName × Val)) (intrinsic : Bool) (e : Err)
    (h : M.iterate_over_manifolds op args intrinsic = Except.error e) :
    ∃ i, i < M.manifolds.length ∧
      op (M.manifolds.getD i default) (M.factor_args args intrinsic i) =
        Except.error e ∧
      ∀ j, j < i → ∃ b,
        op (M.manifolds.getD j default) (M.factor_args args intrinsic j) =
          Except.ok b := by
  rw [PM.iterate_over_manifolds] at h
  obtain ⟨i, hi, hmid, hpre⟩ := collect_error_decomp _ e h
  have hin : i < M.manifolds.length := by simpa using hi
  refine ⟨i, hin, ?_, ?_⟩
  · simpa using hmid
  · intro j hj
    obtain ⟨b, hjlen, hjb⟩ := hpre j hj
    exact ⟨b, by simpa using hjb⟩

/-- Counterexample to C3 as stated: a failing `belongs` dispatch
propagates the raw factor error, which is not a FactorOperationError and
carries no factor index or operation name. -/
theorem dispatch_error_unwrapped_counterexample :
    demoFailPM.belongs (Arr.mk [5] [1, 2, 3, 4, 5]) gs_atol =
        Except.error (Err.raw ("boom")) ∧
      ∀ i op e, Err.raw ("boom") ≠ Err.factorOperationError i op e := by
  constructor
  · decide
  · intro i op e hc
    exact Err.noConfusion hc

/-- Witness for the amended C3 on the concrete failing product. -/
theorem dispatch_error_propagates_first_factor_error_witness :
    ∃ i, i < demoFailPM.manifolds.length ∧
      op_belongs (demoFailPM.manifolds.getD i default)
        (demoFailPM.factor_args
          [(ArgName.point, Val.arr [1, 2, 3, 4, 5]),
           (ArgName.atol, Val.scalar gs_atol)] true i) =
        Except.error (Err.raw ("boom")) ∧
      ∀ j, j < i → ∃ b,
        op_belongs (demoFailPM.manifolds.getD j default)
          (demoFailPM.factor_args
            [(ArgName.point, Val.arr [1, 2, 3, 4, 5]),
             (ArgName.atol, Val.scalar gs_atol)] true j) = Except.ok b :=
  dispatch_error_propagates_first_factor_error demoFailPM op_belongs
    [(ArgName.point, Val.arr [1, 2, 3, 4, 5]), (ArgName.atol, Val.scalar gs_atol)]
    true (Err.raw ("boom")) (by decide)

/-- C4 (amended): construction of a heterogeneous product is rejected
with a ConfigError exactly when the point-layout tag is not one of the
two supported values; no shape-uniformity check is performed for the
matrix layout, so matrix-layout factors with differing shapes are
accepted and the composite silently takes the first factor's shape. -/
theorem init_rejects_only_invalid_point_type (manifolds : List Manifold)
    (tag : String) (intr : Arr Rat → Bool) (jobs : Nat) :
    ((∃ M, PM.mk' manifolds tag intr jobs = Except.ok M) ↔
        (tag = ("vector") ∨ tag = ("matrix")))
  ∧ (¬ (tag = ("vector") ∨ tag = ("matrix")) →
      PM.mk' manifolds tag intr jobs =
        Except.error (Err.configError ("default_point_type"))) := by
  constructor
  · constructor
    · rintro ⟨M, hM⟩
      by_contra hc
      rw [PM.mk', if_pos hc] at hM
      exact Except.noConfusion hM
    · intro hv
      rw [PM.mk', if_neg (not_not_intro hv)]
      exact ⟨_, rfl⟩
  · intro hc
    rw [PM.mk', if_pos hc]

/-- The composite the source builds, without error, from two factors of
differing shapes in the matrix layout. -/
def demoMixedPM : PM :=
  ⟨[demoFac2, demoFac3], ("matrix"), [2, 3], 5, [2, 2], 1, fun _ => true⟩

/-- Counterexample to C4 as stated: a matrix-layout product built from
two factors with differing shapes ([2] and [3]) is constructed without
any error, taking the first factor's shape. -/
theorem matrix_mismatched_shapes_accepted_counterexample :
    demoFac2.shape ≠ demoFac3.shape ∧
      PM.mk' [demoFac2, demoFac3] ("matrix") (fun _ => true) 1 =
        Except.ok demoMixedPM :=
  ⟨by decide, rfl⟩

/-- Witness for the amended C4 at a rejected tag. -/
theorem init_rejects_only_invalid_point_type_witness :
    PM.mk' [] ("other") (fun _ => true) 1 =
      Except.error (Err.configError ("default_point_type")) :=
  (init_rejects_only_invalid_point_type [] ("other") (fun _ => true) 1).2 (by decide)

/-- C5 (amended): on every heterogeneous dispatch each scalar argument
is handed unchanged to every factor and each array argument is sliced
along its trailing axis, factor `i` receiving the `i`-th slice; the
split yields exactly one piece per factor under the intrinsic
convention, and one piece per factor plus one trailing empty piece —
delivered to no factor — under the extrinsic convention. -/
theorem dispatch_argument_routing (M : PM) (args : List (ArgName × Val))
    (intrinsic : Bool) (i : Nat) (hd : M.dims.length = M.manifolds.length)
    (hne : M.manifolds ≠ []) :
    (∀ k v, (k, Val.arr v) ∈ args →
      (k, Val.arr ((gsSplit v (cum_index M.dims intrinsic)).getD i [])) ∈
        M.factor_args args intrinsic i)
  ∧ (∀ k s, (k, Val.scalar s) ∈ args →
      (k, Val.scalar s) ∈ M.factor_args args intrinsic i)
  ∧ (∀ v : List Rat,
      (gsSplit v (cum_index M.dims true)).length = M.manifolds.length)
  ∧ (∀ v : List Rat,
      (gsSplit v (cum_index M.dims false)).length = M.manifolds.length + 1)
  ∧ (∀ v : List Rat, v.length = ((M.dims.map fun k => k + 1).sum) →
      (gsSplit v (cum_index M.dims false)).getLast? = some []) := by
  have hpos : 0 < M.dims.length := by
    rw [hd]
    exact List.length_pos.mpr hne
  refine ⟨?_, ?_, ?_, ?_, ?_⟩
  · intro k v hkv
    apply List.mem_append_left
    have hf : (k, Val.arr v) ∈ args.filter fun kv => ¬ kv.2.isScalar := by
      rw [List.mem_filter]
      exact ⟨hkv, by simp [Val.isScalar]⟩
    exact List.mem_map_of_mem _ hf
  · intro k s hks
    apply List.mem_append_right
    rw [List.mem_filter]
    exact ⟨hks, by simp [Val.isScalar]⟩
  · intro v
    rw [show cum_index M.dims true = (cumsum M.dims).dropLast from rfl,
      gsSplit_length, List.length_dropLast, cumsum_length, ← hd]
    omega
  · intro v
    rw [show cum_index M.dims false = cumsum (M.dims.map fun k => k + 1) from rfl,
      gsSplit_length, cumsum_length, List.length_map, hd]
  · intro v hv
    rw [show cum_index M.dims false = cumsum (M.dims.map fun k => k + 1) from rfl,
      gsSplit_cumsum,
      show v.drop ((M.dims.map fun k => k + 1).sum) = [] from by
        rw [← hv]
        exact List.drop_length v]
    exact List.getLast?_concat _

/-- Counterexample to C5 as stated: on the two-factor product the
extrinsic split of a width-7 array produces three pieces, not exactly
one per factor. -/
theorem extrinsic_split_piece_count_counterexample :
    demoPM2.manifolds.length = 2 ∧
      (gsSplit ([1, 2, 3, 4, 5, 6, 7] : List Rat)
        (cum_index demoPM2.dims false)).length = 3 := by
  constructor
  · rfl
  · decide

/-- Witness for the amended C5 on a concrete extrinsic dispatch. -/
theorem dispatch_argument_routing_witness :
    (ArgName.atol, Val.scalar gs_atol) ∈
        demoPM2.factor_args
          [(ArgName.point, Val.arr [1, 2, 3, 4, 5, 6, 7]),
           (ArgName.atol, Val.scalar gs_atol)] false 0 ∧
      (gsSplit ([1, 2, 3, 4, 5, 6, 7] : List Rat)
        (cum_index demoPM2.dims false)).getLast? = some [] := by
  have h := dispatch_argument_routing demoPM2
    [(ArgName.point, Val.arr [1, 2, 3, 4, 5, 6, 7]),
     (ArgName.atol, Val.scalar gs_atol)] false 0 rfl (by simp [demoPM2])
  exact ⟨h.2.1 ArgName.atol gs_atol (by simp),
    h.2.2.2.2 [1, 2, 3, 4, 5, 6, 7] (by decide)⟩

/-- C6 (code defect): matrix-layout `regularize` recombines the
per-factor results with `gs.stack(..., axis=1)`, so an unbatched matrix
point of shape `[n_factors, dim_each] = [2, 3]` comes back transposed
with shape `[3, 2]` and interleaved data — not in the canonical
`[..., n_factors, dim_each]` layout its own contract promises (the
sibling `projection` stacks at axis -2). -/
theorem regularize_matrix_axis1_transposes :
    demoMatPM.shape = [2, 3] ∧
      demoMatPM.regularize (Arr.mk [2, 3] [1, 2, 3, 4, 5, 6]) =
        Except.ok (Arr.mk [3, 2] [1, 4, 2, 5, 3, 6]) ∧
      Arr.shape (Arr.mk [3, 2] ([1, 4, 2, 5, 3, 6] : List Rat)) ≠
        Arr.shape (Arr.mk [2, 3] ([1, 2, 3, 4, 5, 6] : List Rat)) := by
  refine ⟨rfl, by decide, by decide⟩

/-- C7: `NFoldManifold.random_point` requests `n_samples * n_copies`
draws from the base in one call, reshapes them to
`(n_samples, n_copies, *base_shape)`, and drops the leading axis exactly
when `n_samples = 1`; the result is well-formed whenever the base
sampler meets its size contract. -/
theorem nfold_random_point_single_batched_draw (N : NF) (bound : Rat)
    (n_samples : Nat) :
    ((N.random_point n_samples bound).data =
        (N.base_manifold.random_point (n_samples * N.n_copies) bound).data)
  ∧ (n_samples = 1 →
      (N.random_point n_samples bound).shape = N.n_copies :: N.base_shape)
  ∧ (1 < n_samples →
      (N.random_point n_samples bound).shape =
        n_samples :: N.n_copies :: N.base_shape)
  ∧ ((N.base_manifold.random_point (n_samples * N.n_copies) bound).data.length =
        n_samples * N.n_copies * N.base_shape.prod → 1 ≤ n_samples →
      (N.random_point n_samples bound).data.length =
        (N.random_point n_samples bound).shape.prod) := by
  refine ⟨?_, ?_, ?_, ?_⟩
  · rw [NF.random_point]
    by_cases h : n_samples > 1
    · rw [if_pos h]
      rfl
    · rw [if_neg h, gs_squeeze_axis0]
      split
      · rfl
      · rfl
  · intro h1
    subst h1
    rfl
  · intro h1
    rw [NF.random_point, if_pos h1]
    rfl
  · intro hlen h1
    by_cases h : n_samples > 1
    · rw [NF.random_point, if_pos h]
      simp [gs_reshape, hlen, List.prod_cons, Nat.mul_assoc]
    · have h1' : n_samples = 1 := by omega
      subst h1'
      simp only [Nat.one_mul] at hlen
      rw [NF.random_point, if_neg (by omega)]
      simp only [gs_reshape, gs_squeeze_axis0]
      simp [hlen, List.prod_cons]

/-- Witness for C7 at base shape `[3]` and four copies. -/
theorem nfold_random_point_single_batched_draw_witness :
    (demoNF.random_point 1 0).shape = [4, 3] ∧
      (demoNF.random_point 5 0).shape = [5, 4, 3] ∧
      (demoNF.random_point 1 0).data.length = 12 := by
  have h1 := nfold_random_point_single_batched_draw demoNF 0 1
  have h5 := nfold_random_point_single_batched_draw demoNF 0 5
  refine ⟨?_, ?_, ?_⟩
  · exact h1.2.1 rfl
  · exact h5.2.2.1 (by omega)
  · have hw := h1.2.2.2 (by decide) (by omega)
    rw [hw, h1.2.1 rfl]
    decide

/-- C8: `NFoldManifold.projection` fails with the NotSupportedError of
the spec's taxonomy when the base exposes no projection, and otherwise
flattens the factor axis into the batch axis, calls the base projection
once on the flattened point, reshapes back to
`(-1, n_copies, *base_shape)` and squeezes. -/
theorem nfold_projection_requires_base_projection (N : NF) (point : Arr Rat) :
    (N.base_manifold.projection = none →
      N.projection point = Except.error (Err.notSupported
        ("The base manifold does not implement a projection method.")))
  ∧ (∀ f, N.base_manifold.projection = some f →
      N.projection point = Except.ok (gs_squeeze (gs_reshape_m1
        (f (gs_reshape_m1 point N.base_shape)) (N.n_copies :: N.base_shape)))) := by
  constructor
  · intro h
    simp [NF.projection, h]
  · intro f h
    simp [NF.projection, h]

/-- A concrete composite point for the projection witness. -/
def demoPt12 : Arr Rat := ⟨[4, 3], (List.range 12).map fun k => (k : Rat)⟩

/-- Witness for C8: the projection-less power fails, the projecting one
flattens, projects once and reshapes back. -/
theorem nfold_projection_requires_base_projection_witness :
    demoNFnp.projection demoPt12 = Except.error (Err.notSupported
        ("The base manifold does not implement a projection method.")) ∧
      demoNF.projection demoPt12 = Except.ok (Arr.mk [4, 3] demoPt12.data) := by
  constructor
  · exact (nfold_projection_requires_base_projection demoNFnp demoPt12).1 rfl
  · have h := (nfold_projection_requires_base_projection demoNF demoPt12).2
      (fun a => a) rfl
    rw [h]
    decide

/-- C9: for every successful construction the derived dimension is the
sum of the factor dimensions (heterogeneous) or `n_copies * base.dim`
(homogeneous), and the derived shape is the sum of the factors' leading
widths (vector layout), the factor count followed by the common factor
shape (matrix layout, when the factors do share a shape), or the copy
count followed by the base shape (homogeneous power). -/
theorem derived_dim_and_shape_invariants
    (manifolds : List Manifold) (tag : String) (intr : Arr Rat → Bool)
    (jobs : Nat) (M : PM) (hM : PM.mk' manifolds tag intr jobs = Except.ok M)
    (base : NBase) (n : Nat) (N : NF) (hN : NF.mk' base n = Except.ok N) :
    M.dim = (manifolds.map fun m => m.dim).sum
  ∧ (tag = ("vector") → M.shape = [(manifolds.map fun m => m.shape.headD 0).sum])
  ∧ (tag = ("matrix") → ∀ c, (∀ m ∈ manifolds, m.shape = c) → manifolds ≠ [] →
      M.shape = manifolds.length :: c)
  ∧ N.dim = n * base.dim
  ∧ N.shape = n :: base.shape := by
  have hPM : M.dim = (manifolds.map fun m => m.dim).sum ∧
      M.shape = (if tag = ("vector")
        then [(manifolds.map fun m => m.shape.headD 0).sum]
        else manifolds.length :: (manifolds.headD default).shape) := by
    by_cases hv : tag = ("vector") ∨ tag = ("matrix")
    · rw [PM.mk', if_neg (not_not_intro hv)] at hM
      injection hM with hM
      subst hM
      exact ⟨rfl, rfl⟩
    · rw [PM.mk', if_pos hv] at hM
      exact Except.noConfusion hM
  have hNF : N.dim = n * base.dim ∧ N.shape = n :: base.shape := by
    by_cases hn : n < 1
    · rw [NF.mk', if_pos hn] at hN
      exact Except.noConfusion hN
    · rw [NF.mk', if_neg hn] at hN
      injection hN with hN
      subst hN
      exact ⟨rfl, rfl⟩
  refine ⟨hPM.1, ?_, ?_, hNF.1, hNF.2⟩
  · intro hveq
    rw [hPM.2, if_pos hveq]
  · intro hmeq c hc hne
    rw [hPM.2, if_neg (by rw [hmeq]; decide)]
    congr 1
    cases manifolds with
    | nil => exact absurd rfl hne
    | cons m ms => exact hc m (List.mem_cons_self m ms)

/-- Witness for C9 on concrete heterogeneous and homogeneous builds. -/
theorem derived_dim_and_shape_invariants_witness :
    demoPM2.dim = 5 ∧ demoPM2.shape = [5] ∧ demoNF.dim = 12 ∧
      demoNF.shape = [4, 3] := by
  have h := derived_dim_and_shape_invariants [demoFac2, demoFac3] ("vector")
    (fun _ => true) 1 demoPM2 rfl demoBase 4 demoNF rfl
  exact ⟨h.1, h.2.1 rfl, h.2.2.2.1, h.2.2.2.2⟩

/-- C10: `NFoldManifold.is_tangent` accepts a tolerance argument but
never forwards it to the base space's `is_tangent` call (the source
omits it, so the base uses its default), hence the result is the same as
with the default tolerance for every vector, base point and tolerance. -/
theorem nfold_is_tangent_ignores_atol (N : NF) (vector base_point : Arr Rat)
    (atol : Rat) :
    N.is_tangent vector base_point atol =
      N.is_tangent vector base_point gs_atol := rfl
